import Mathlib

/-!
Verification of the tool-selection and response-orchestration pipeline of the
mongodb-atlas-agentic-rag-demo repository.

The Python source is shallowly embedded: pure string/list manipulation is
translated to executable Lean functions; the one remote generation call made by
`tool_selector` (src/planning.py) is modelled by an explicit `ModelOutcome`
value describing how the call ended (raised / returned malformed text /
returned a parsed JSON object), since the remote provider is an external
collaborator.  JSON-like Python values are modelled by `PyVal`; Python's
`str.lower`, substring membership (`in`), truthiness and `str()` are modelled
by `pyLower`, `inStr`, `pyTruthy` and `pyStr`.
-/

/-- JSON-like Python values, as produced by `json.loads` for the fields of the
model's structured response.  `noneV` is Python `None`. -/
inductive PyVal where
  | str (s : String)
  | intV (n : Int)
  | dict (fields : List (String × PyVal))
  | listV (xs : List PyVal)
  | noneV

/-- Models Python `str.lower()` (character-wise lowercasing; the keywords the
code compares against are ASCII). -/
def pyLower (s : String) : String := ⟨s.data.map Char.toLower⟩

/-- Models Python's substring membership `needle in haystack`. -/
def inStr (needle haystack : String) : Bool :=
  decide (needle.data <:+: haystack.data)

/-- Models Python truthiness (`bool(x)`) on the values of `PyVal`. -/
def pyTruthy : PyVal → Bool
  | .str s => !s.isEmpty
  | .intV n => n != 0
  | .dict fields => !fields.isEmpty
  | .listV xs => !xs.isEmpty
  | .noneV => false

/-- Whitespace characters stripped by Python `str.strip()` (ASCII subset). -/
def isPySpace (c : Char) : Bool :=
  c == ' ' || c == '\t' || c == '\n' || c == '\r' || c == '\x0b' || c == '\x0c'

/-- Models Python `str.strip()`. -/
def pyStrip (s : String) : String :=
  ⟨((s.data.dropWhile isPySpace).reverse.dropWhile isPySpace).reverse⟩

mutual
/-- Models Python `str()` on JSON-like values.  The exact repr formatting of
composite values (key quoting etc.) is abstracted; every claim proven below
depends only on the structure of the scalar cases and on the fact that the
string rendering of a composite value is wrapped in brackets. -/
def pyStr : PyVal → String
  | .str s => s
  | .intV n => toString n
  | .dict fields => "\x7b" ++ pyStrFields fields ++ "\x7d"
  | .listV xs => "[" ++ pyStrElems xs ++ "]"
  | .noneV => "None"

def pyStrFields : List (String × PyVal) → String
  | [] => ""
  | (k, v) :: rest =>
      k ++ ": " ++ pyStr v ++ (if rest.isEmpty then "" else ", ") ++ pyStrFields rest

def pyStrElems : List PyVal → String
  | [] => ""
  | v :: rest => pyStr v ++ (if rest.isEmpty then "" else ", ") ++ pyStrElems rest
end

/-- The domain-affinity keyword list of `tool_selector` (src/planning.py
lines 149 and 165). -/
def mongodb_keywords : List String :=
  ["mongodb", "atlas", "vector", "database", "search", "acquisition",
   "revenue", "earnings", "financial"]

/-- The general-knowledge keyword list of `tool_selector` (src/planning.py
lines 155 and 166). -/
def general_knowledge_keywords : List String :=
  ["country", "plays", "football", "soccer", "team", "club", "sport", "movie",
   "actor", "city", "capital", "population", "president", "prime minister",
   "cook", "recipe", "weather", "time", "explain", "how to", "what is",
   "who is", "where is", "when is", "why is"]

/-- Models `any(keyword in user_input.lower() for keyword in keywords)`. -/
def anyKeyword (keywords : List String) (user_input : String) : Bool :=
  keywords.any fun k => inStr k (pyLower user_input)

/-- The deterministic override rules of `tool_selector` (src/planning.py
lines 148-158), applied after the model's choice. -/
def applyOverrides (selected_tool : String) (user_input : String) : String :=
  let afterFirst :=
    if selected_tool == "web_search_tool" && anyKeyword mongodb_keywords user_input
    then "vector_search_tool" else selected_tool
  if afterFirst == "none" && anyKeyword general_knowledge_keywords user_input
  then "web_search_tool" else afterFirst

/-- The keyword-only fallback taken when the remote call (or any later step
inside the outer `try`) raises (src/planning.py lines 162-173). -/
def keywordFallback (user_input : String) : String × PyVal :=
  if anyKeyword mongodb_keywords user_input then ("vector_search_tool", .str user_input)
  else if anyKeyword general_knowledge_keywords user_input then ("web_search_tool", .str user_input)
  else ("none", .str user_input)

/-- The substring-based fallback parse used when `json.loads` fails on the
model's response text (src/planning.py lines 127-146). -/
def fallbackParse (tool_response : String) : String :=
  if inStr "vector_search_tool" tool_response then "vector_search_tool"
  else if inStr "calculator_tool" tool_response then "calculator_tool"
  else if inStr "web_search_tool" tool_response then "web_search_tool"
  else if inStr "document_analysis_tool" tool_response then "document_analysis_tool"
  else if inStr "hybrid_search_tool" tool_response then "hybrid_search_tool"
  else "none"

/-- Lines 110-122: a nested dict is reduced to its `query`/`input` sub-field
if present, else stringified; a non-dict non-string is stringified; a string
is kept. -/
def extractedInput (tool_input : PyVal) : PyVal :=
  match tool_input with
  | .dict fields =>
      match fields.lookup "query" with
      | some v => v
      | Option.none =>
          match fields.lookup "input" with
          | some v => v
          | Option.none => .str (pyStr tool_input)
  | .str s => .str s
  | v => .str (pyStr v)

/-- Lines 124-126: `if not tool_input or not tool_input.strip()` substitute
the original utterance; `.strip()` on a truthy non-string raises
`AttributeError`, modelled by `Option.none`. -/
def emptinessCheck (t1 : PyVal) (user_input : String) : Option PyVal :=
  if pyTruthy t1 = false then some (.str user_input)
  else
    match t1 with
    | .str s => if (pyStrip s).isEmpty then some (.str user_input) else some (.str s)
    | _ => Option.none

/-- The input-normalisation step of `tool_selector` (src/planning.py
lines 110-126), executed only when the parsed tool is not `"none"`.
`Option.none` marks the raised `AttributeError`, which escapes to the outer
handler. -/
def normalizeInput (tool_input : PyVal) (user_input : String) : Option PyVal :=
  emptinessCheck (extractedInput tool_input) user_input

/-- How the single remote generation call of `tool_selector` ends: the call
raises; it returns text on which `json.loads` fails; or it returns text that
parses to a JSON object with optional `tool` and `input` fields. -/
inductive ModelOutcome where
  | failure
  | malformed (tool_response : String)
  | json (toolField : Option String) (inputField : Option PyVal)

/-- The tool selected by the model step itself, before overrides (used to
state the amended input-invariant claim). -/
def modelToolOf : ModelOutcome → Option String
  | .json toolField _ => some (toolField.getD "none")
  | _ => Option.none

/-- Shallow embedding of `tool_selector` (src/planning.py lines 33-173),
parametrised by the outcome of the remote generation call.  Returns the
`(selected_tool, tool_input)` pair the Python function returns. -/
def tool_selector (user_input : String) (outcome : ModelOutcome) : String × PyVal :=
  match outcome with
  | .failure => keywordFallback user_input
  | .malformed tool_response =>
      (applyOverrides (fallbackParse tool_response) user_input, .str user_input)
  | .json toolField inputField =>
      let selected_tool := toolField.getD "none"
      let tool_input := inputField.getD (.str user_input)
      if selected_tool ≠ "none" then
        match normalizeInput tool_input user_input with
        | some tin => (applyOverrides selected_tool user_input, tin)
        | Option.none => keywordFallback user_input
      else
        (applyOverrides selected_tool user_input, tool_input)

/-!
## Calculator (src/tools.py lines 50-68)

`calculator_tool` guards its input with a safe-character check and a
dangerous-substring check, then hands it to Python `eval`.  Restricted to the
safe character set `0123456789+-*/.() `, `eval` is an arithmetic evaluator
over int and float literals with `+ - * / // **`, parentheses and unary signs.
We embed that evaluator directly: Python ints are `Int`, Python floats are
modelled exactly by `ℚ` (the claims proven below involve no float rounding or
float formatting), and a raised arithmetic exception is an `Except.error`
carrying `str(e)` of the corresponding Python exception.
-/

/-- A Python number: `int` or `float` (floats modelled exactly by `ℚ`). -/
inductive PyNum where
  | intNum (n : Int)
  | floatNum (q : ℚ)
deriving DecidableEq

def PyNum.toRat : PyNum → ℚ
  | .intNum n => (n : ℚ)
  | .floatNum q => q

/-- Python `+` on numbers: int when both are int, float otherwise. -/
def pyAdd (a b : PyNum) : PyNum :=
  match a, b with
  | .intNum x, .intNum y => .intNum (x + y)
  | _, _ => .floatNum (a.toRat + b.toRat)

/-- Python `-` on numbers. -/
def pySub (a b : PyNum) : PyNum :=
  match a, b with
  | .intNum x, .intNum y => .intNum (x - y)
  | _, _ => .floatNum (a.toRat - b.toRat)

/-- Python `*` on numbers. -/
def pyMul (a b : PyNum) : PyNum :=
  match a, b with
  | .intNum x, .intNum y => .intNum (x * y)
  | _, _ => .floatNum (a.toRat * b.toRat)

/-- Python unary `-`. -/
def pyNeg : PyNum → PyNum
  | .intNum n => .intNum (-n)
  | .floatNum q => .floatNum (-q)

/-- Python `/` (true division, always float); raises `ZeroDivisionError` on a
zero divisor, with the message Python attaches to it. -/
def pyDiv (a b : PyNum) : Except String PyNum :=
  match a, b with
  | .intNum _, .intNum y =>
      if y = 0 then .error "division by zero"
      else .ok (.floatNum (a.toRat / b.toRat))
  | _, _ =>
      if b.toRat = 0 then .error "float division by zero"
      else .ok (.floatNum (a.toRat / b.toRat))

/-- Python `//` (floor division). -/
def pyFloorDiv (a b : PyNum) : Except String PyNum :=
  match a, b with
  | .intNum x, .intNum y =>
      if y = 0 then .error "integer division or modulo by zero"
      else .ok (.intNum (Int.fdiv x y))
  | _, _ =>
      if b.toRat = 0 then .error "float floor division by zero"
      else .ok (.floatNum ((⌊a.toRat / b.toRat⌋ : Int) : ℚ))

/-- Python `**` with an integer exponent value `e` over base `r` (float
result). -/
def ratPow (r : ℚ) (e : Int) : Except String ℚ :=
  if 0 ≤ e then .ok (r ^ e.toNat)
  else if r = 0 then .error "0.0 cannot be raised to a negative power"
  else .ok ((r ^ (-e).toNat)⁻¹)

/-- Runs `ratPow` and wraps the result as a float. -/
def floatPow (r : ℚ) (e : Int) : Except String PyNum :=
  match ratPow r e with
  | .ok q => .ok (.floatNum q)
  | .error msg => .error msg

/-- Python `**` on numbers.  A float exponent with a non-integral value would
give an irrational result, which is outside the rational model; no claim
below evaluates such an expression. -/
def pyPow (a b : PyNum) : Except String PyNum :=
  match a, b with
  | .intNum x, .intNum y =>
      if 0 ≤ y then .ok (.intNum (x ^ y.toNat))
      else if x = 0 then .error "0.0 cannot be raised to a negative power"
      else floatPow (x : ℚ) y
  | _, .intNum y => floatPow a.toRat y
  | _, .floatNum q =>
      if q.den = 1 then floatPow a.toRat q.num
      else .error "non-integral exponents are outside the rational model"

/-- Digit character for a digit value below ten. -/
def digitChar (d : Nat) : Char :=
  if h : d < 10 then "0123456789".data[d] else '0'

/-- Decimal digit list of a natural number (fuel-based recursion). -/
def natReprList : Nat → Nat → List Char
  | 0, _ => []
  | fuel + 1, n =>
      if n < 10 then [digitChar n]
      else natReprList fuel (n / 10) ++ [digitChar (n % 10)]

/-- Models Python `str()` of an int. -/
def intReprList (n : Int) : List Char :=
  if n < 0 then '-' :: natReprList ((-n).toNat + 1) (-n).toNat
  else natReprList (n.toNat + 1) n.toNat

/-- Models Python `str()` of a number.  Integral floats render as `n.0` as in
Python; the shortest-round-trip formatting of non-integral binary floats is
outside the rational model and is rendered as an exact fraction instead (no
claim below depends on it). -/
def pyNumStr : PyNum → String
  | .intNum n => ⟨intReprList n⟩
  | .floatNum q =>
      if q.den = 1 then ⟨intReprList q.num ++ ['.', '0']⟩
      else ⟨intReprList q.num ++ '/' :: natReprList (q.den + 1) q.den⟩

/-- Tokens of the restricted arithmetic grammar. -/
inductive Tok where
  | num (v : PyNum)
  | plus | minus | star | slash | dstar | dslash | lparen | rparen
deriving DecidableEq

def digitVal (c : Char) : Nat := c.toNat - 48

def natOfDigits (ds : List Char) : Nat :=
  ds.foldl (fun a c => a * 10 + digitVal c) 0

def isDigitOrDot (c : Char) : Bool := c.isDigit || c == '.'

/-- Turns a maximal run of digits and dots into a numeric literal, as the
Python tokenizer does; more than one dot, or a lone dot, is a syntax error. -/
def numOfLexeme (ds : List Char) : Option PyNum :=
  if ds.all (·.isDigit) then some (.intNum (natOfDigits ds))
  else
    let ipart := ds.takeWhile (· ≠ '.')
    let fpart := (ds.dropWhile (· ≠ '.')).tail
    if ds.countP (· == '.') = 1 && !(ipart.isEmpty && fpart.isEmpty)
       && ipart.all (·.isDigit) && fpart.all (·.isDigit) then
      some (.floatNum ((natOfDigits ipart : ℚ) +
        (natOfDigits fpart : ℚ) / (10 : ℚ) ^ fpart.length))
    else Option.none

/-- Prepends a token to the result of a tokenizer call. -/
def consTok (t : Tok) : Except String (List Tok) → Except String (List Tok)
  | .ok ts => .ok (t :: ts)
  | .error msg => .error msg

/-- Tokenizer for the restricted grammar (fuel-based; the fuel is at least the
number of remaining characters plus one, and every step consumes at least one
character). -/
def tokenize : Nat → List Char → Except String (List Tok)
  | 0, _ => .error "invalid syntax"
  | _, [] => .ok []
  | fuel + 1, c :: cs =>
      if c == ' ' then tokenize fuel cs
      else if c == '(' then consTok .lparen (tokenize fuel cs)
      else if c == ')' then consTok .rparen (tokenize fuel cs)
      else if c == '+' then consTok .plus (tokenize fuel cs)
      else if c == '-' then consTok .minus (tokenize fuel cs)
      else if c == '*' then
        match cs with
        | '*' :: cs2 => consTok .dstar (tokenize fuel cs2)
        | _ => consTok .star (tokenize fuel cs)
      else if c == '/' then
        match cs with
        | '/' :: cs2 => consTok .dslash (tokenize fuel cs2)
        | _ => consTok .slash (tokenize fuel cs)
      else if isDigitOrDot c then
        match numOfLexeme (c :: cs.takeWhile isDigitOrDot) with
        | some v => consTok (.num v) (tokenize fuel (cs.dropWhile isDigitOrDot))
        | Option.none => .error "invalid syntax"
      else .error "invalid syntax"

/-!
Recursive-descent parser/evaluator mirroring the Python expression grammar on
the characters the calculator admits (operator precedence: `**` above unary
sign above `* / //` above `+ -`; `+ -` and `* / //` left-associative, `**`
right-associative).  Fuel-based: every claim evaluating a concrete expression
supplies ample fuel, and the error-message lemmas below hold for every fuel.
-/
mutual
def parseExpr : Nat → List Tok → Except String (PyNum × List Tok)
  | 0, _ => .error "invalid syntax"
  | fuel + 1, toks =>
      match parseTerm fuel toks with
      | .ok (v, rest) => parseExprLoop fuel v rest
      | .error msg => .error msg

def parseExprLoop : Nat → PyNum → List Tok → Except String (PyNum × List Tok)
  | 0, _, _ => .error "invalid syntax"
  | fuel + 1, v, toks =>
      match toks with
      | .plus :: rest =>
          match parseTerm fuel rest with
          | .ok (w, rest2) => parseExprLoop fuel (pyAdd v w) rest2
          | .error msg => .error msg
      | .minus :: rest =>
          match parseTerm fuel rest with
          | .ok (w, rest2) => parseExprLoop fuel (pySub v w) rest2
          | .error msg => .error msg
      | _ => .ok (v, toks)

def parseTerm : Nat → List Tok → Except String (PyNum × List Tok)
  | 0, _ => .error "invalid syntax"
  | fuel + 1, toks =>
      match parseFactor fuel toks with
      | .ok (v, rest) => parseTermLoop fuel v rest
      | .error msg => .error msg

def parseTermLoop : Nat → PyNum → List Tok → Except String (PyNum × List Tok)
  | 0, _, _ => .error "invalid syntax"
  | fuel + 1, v, toks =>
      match toks with
      | .star :: rest =>
          match parseFactor fuel rest with
          | .ok (w, rest2) => parseTermLoop fuel (pyMul v w) rest2
          | .error msg => .error msg
      | .slash :: rest =>
          match parseFactor fuel rest with
          | .ok (w, rest2) =>
              match pyDiv v w with
              | .ok u => parseTermLoop fuel u rest2
              | .error msg => .error msg
          | .error msg => .error msg
      | .dslash :: rest =>
          match parseFactor fuel rest with
          | .ok (w, rest2) =>
              match pyFloorDiv v w with
              | .ok u => parseTermLoop fuel u rest2
              | .error msg => .error msg
          | .error msg => .error msg
      | _ => .ok (v, toks)

def parseFactor : Nat → List Tok → Except String (PyNum × List Tok)
  | 0, _ => .error "invalid syntax"
  | fuel + 1, toks =>
      match toks with
      | .minus :: rest =>
          match parseFactor fuel rest with
          | .ok (v, r) => .ok (pyNeg v, r)
          | .error msg => .error msg
      | .plus :: rest => parseFactor fuel rest
      | _ => parsePower fuel toks

def parsePower : Nat → List Tok → Except String (PyNum × List Tok)
  | 0, _ => .error "invalid syntax"
  | fuel + 1, toks =>
      match parseAtom fuel toks with
      | .ok (b, .dstar :: rest2) =>
          match parseFactor fuel rest2 with
          | .ok (e, rest3) =>
              match pyPow b e with
              | .ok v => .ok (v, rest3)
              | .error msg => .error msg
          | .error msg => .error msg
      | .ok (b, rest) => .ok (b, rest)
      | .error msg => .error msg

def parseAtom : Nat → List Tok → Except String (PyNum × List Tok)
  | 0, _ => .error "invalid syntax"
  | fuel + 1, toks =>
      match toks with
      | .num v :: rest => .ok (v, rest)
      | .lparen :: rest =>
          match parseExpr fuel rest with
          | .ok (v, .rparen :: rest3) => .ok (v, rest3)
          | .ok _ => .error "invalid syntax"
          | .error msg => .error msg
      | _ => .error "invalid syntax"
end

/-- Models Python `eval` on the restricted arithmetic grammar, returning
`str(e)` of the raised exception as the error value. -/
def pyEvalExpr (s : String) : Except String PyNum :=
  match tokenize (s.data.length + 1) s.data with
  | .error msg => .error msg
  | .ok toks =>
      match parseExpr (4 * toks.length + 4) toks with
      | .ok (v, []) => .ok v
      | .ok _ => .error "invalid syntax"
      | .error msg => .error msg

/-- The safe character set of `calculator_tool` (src/tools.py line 56). -/
def safe_chars : List Char := "0123456789+-*/.() ".data

/-- The dangerous-substring blocklist of `calculator_tool` (src/tools.py
line 61). -/
def dangerous_funcs : List String := ["import", "exec", "eval", "__"]

/-- Shallow embedding of `calculator_tool` (src/tools.py lines 50-68). -/
def calculator_tool (user_input : String) : String :=
  if !(user_input.data.all (fun c => safe_chars.contains c)) then
    "Error: Invalid characters in mathematical expression"
  else if dangerous_funcs.any (fun f => inStr f (pyLower user_input)) then
    "Error: Potentially unsafe expression"
  else
    match pyEvalExpr user_input with
    | .ok v => pyNumStr v
    | .error msg => "Error: " ++ msg

/-!
## Hybrid search (src/tools.py lines 120-156)

`hybrid_search_tool` combines the result lists of the vector-search and
text-search collaborators.  Both collaborators are external (MongoDB Atlas
queries), so the embedding is parametrised by their result lists; the `try`
block around the whole combination is modelled by an `Except` value for the
text-search call and the combination step (the vector-search tool never
raises: it catches internally and returns a list).  The documents the store
returns carry `text` and `metadata` projections and no `search_type` key;
`search_type` is the key the combination step adds, hence an `Option`. -/

structure RetrievedDocument where
  text : String
  metadata : String
  search_type : Option String
deriving DecidableEq

/-- The two accumulation loops of `hybrid_search_tool` (src/tools.py
lines 138-150): walk the results, skip texts already seen, tag and append the
rest. -/
def addTagged (tag : String) :
    List RetrievedDocument → List RetrievedDocument → List String →
    List RetrievedDocument × List String
  | [], acc, seen => (acc, seen)
  | r :: rs, acc, seen =>
      if r.text ∈ seen then addTagged tag rs acc seen
      else addTagged tag rs (acc ++ [{ r with search_type := some tag }]) (r.text :: seen)

/-- The combination step of `hybrid_search_tool`: vector results first, then
text results, deduplicated by exact text equality. -/
def hybrid_combine (vector_results text_results : List RetrievedDocument) :
    List RetrievedDocument :=
  let p := addTagged "vector" vector_results [] []
  (addTagged "text" text_results p.1 p.2).1

/-- Shallow embedding of `hybrid_search_tool` (src/tools.py lines 120-156).
`text_outcome` is the outcome of the text-search call and combination step:
`.ok` with the text-search results, or `.error` when any exception is raised
inside the `try` block, in which case the code falls back to calling the
vector-search tool again, which returns `vector_results` (same query, no
`search_type` key added). -/
def hybrid_search_tool (vector_results : List RetrievedDocument)
    (text_outcome : Except Unit (List RetrievedDocument)) (limit : Nat) :
    List RetrievedDocument :=
  match text_outcome with
  | .ok text_results => (hybrid_combine vector_results text_results).take limit
  | .error _ => vector_results

/-!
## Memory store (src/memory.py) and orchestration (src/planning.py)

The document store is an external collaborator; it is modelled as an in-order
list of inserted records plus a monotone clock supplying `datetime.now()`
timestamps.  `find(...).sort("timestamp", 1)` is modelled by an insertion sort
on the timestamp. -/

structure ChatTurn where
  session_id : String
  role : String
  content : String
  timestamp : Nat
  metadata : List (String × String)
deriving DecidableEq

structure MemoryStore where
  turns : List ChatTurn
  clock : Nat

/-- Timestamp ordering used by `retrieve_session_history`'s sort. -/
def turnLe (a b : ChatTurn) : Prop := a.timestamp ≤ b.timestamp

instance : DecidableRel turnLe := fun a b => Nat.decLe a.timestamp b.timestamp

instance : IsTotal ChatTurn turnLe := ⟨fun a b => Nat.le_total a.timestamp b.timestamp⟩

instance : IsTrans ChatTurn turnLe := ⟨fun _ _ _ => Nat.le_trans⟩

/-- Shallow embedding of `store_chat_message` (src/memory.py lines 6-21):
insert one record carrying the current time. -/
def store_chat_message (st : MemoryStore) (session_id role content : String)
    (metadata : List (String × String) := []) : MemoryStore :=
  { turns := st.turns ++ [⟨session_id, role, content, st.clock, metadata⟩],
    clock := st.clock + 1 }

/-- A history entry as returned by `retrieve_session_history` (the rebuilt
dict keeps `role`, `content`, `timestamp`, `metadata`). -/
structure HistMsg where
  role : String
  content : String
  timestamp : Nat
  metadata : List (String × String)
deriving DecidableEq

/-- Shallow embedding of `retrieve_session_history` (src/memory.py
lines 23-47) without the optional limit (no caller in the claims passes one):
filter by session, sort ascending by timestamp, project the four fields. -/
def retrieve_session_history (st : MemoryStore) (session_id : String) :
    List HistMsg :=
  ((st.turns.filter (fun t => t.session_id == session_id)).insertionSort turnLe).map
    fun t => ⟨t.role, t.content, t.timestamp, t.metadata⟩

/-- A chat message `{role, content}` as sent to the generation provider. -/
structure ChatMsg where
  role : String
  content : String
deriving DecidableEq

/-- Shallow embedding of `clean_session_history` (src/planning.py
lines 20-31). -/
def clean_session_history (session_history : List HistMsg) : List ChatMsg :=
  session_history.map fun m => ⟨m.role, m.content⟩

/-- The message-list construction of `get_llm_response` (src/planning.py
lines 331-342): the list actually handed to the generation call. -/
def get_llm_response_messages (messages : List ChatMsg) (system_message : String) :
    List ChatMsg :=
  let system_msg : ChatMsg := ⟨"system", system_message⟩
  if messages.any (fun m => m.role == "system") then messages ++ [system_msg]
  else system_msg :: messages

/-- The conversation-list construction of `generate_response` (src/planning.py
lines 179-210): persist the user turn, reload the history, and build the
`llm_input` list handed to the Response Synthesizer.  `session_summary` is the
text the remote summary call returned (external collaborator). -/
def generate_llm_input (st : MemoryStore) (session_id user_input : String)
    (session_summary : String) : List ChatMsg :=
  let st1 := store_chat_message st session_id "user" user_input
  let session_history := retrieve_session_history st1 session_id
  let base : List ChatMsg :=
    if session_summary ≠ "" ∧ session_summary ≠ "No previous conversation history."
    then [⟨"system", "Previous conversation summary: " ++ session_summary⟩]
    else []
  base ++ clean_session_history session_history ++ [⟨"user", user_input⟩]

/-!
## Theorems
-/

lemma keywordFallback_snd (user_input : String) :
    (keywordFallback user_input).2 = PyVal.str user_input := by
  unfold keywordFallback
  repeat' split
  all_goals rfl

/-- Whenever the normalisation step of `tool_selector` completes without
raising, it yields a string; the string is non-empty whenever the original
user utterance is. -/
lemma normalizeInput_nonempty (tool_input : PyVal) (user_input : String) (v : PyVal)
    (hui : user_input ≠ "") (h : normalizeInput tool_input user_input = some v) :
    ∃ s, v = PyVal.str s ∧ s ≠ "" := by
  unfold normalizeInput emptinessCheck at h
  split at h
  · exact ⟨user_input, by simpa using h.symm, hui⟩
  · rename_i htruthy
    split at h
    · rename_i s heq
      split at h
      · exact ⟨user_input, by simpa using h.symm, hui⟩
      · refine ⟨s, by simpa using h.symm, ?_⟩
        intro hs
        subst hs
        rw [heq] at htruthy
        simp [pyTruthy] at htruthy
        exact absurd htruthy (by decide)
    · exact absurd h (by simp)

/-- C1: domain-affinity keywords promote a model-selected `web_search_tool` to
`vector_search_tool`, and general-knowledge keywords promote a model-selected
`none` to `web_search_tool`; both overrides run after the model's choice and
test case-insensitive substring membership against the two fixed keyword
lists. -/
theorem tool_selector_override_rules (user_input : String) (inputField : Option PyVal) :
    (anyKeyword mongodb_keywords user_input = true →
      (tool_selector user_input (.json (some "web_search_tool") inputField)).1 =
        "vector_search_tool") ∧
    (anyKeyword general_knowledge_keywords user_input = true →
      (tool_selector user_input (.json (some "none") inputField)).1 = "web_search_tool") := by
  constructor
  · intro h
    simp only [tool_selector, Option.getD_some]
    rw [if_pos (by decide)]
    cases hn : normalizeInput (inputField.getD (.str user_input)) user_input with
    | some tin => simp [applyOverrides, h]
    | none => simp [keywordFallback, h]
  · intro h
    simp only [tool_selector, Option.getD_some]
    rw [if_neg (by simp)]
    simp [applyOverrides, h]

/-- Witness for `tool_selector_override_rules`, at the two concrete inputs the
specification gives as examples (modulo the possessive apostrophe). -/
theorem tool_selector_override_rules_witness :
    (tool_selector "What was the latest MongoDB acquisition?"
      (.json (some "web_search_tool") Option.none)).1 = "vector_search_tool" ∧
    (tool_selector "What is the capital of France?"
      (.json (some "none") Option.none)).1 = "web_search_tool" :=
  ⟨(tool_selector_override_rules "What was the latest MongoDB acquisition?" Option.none).1
      (by decide),
   (tool_selector_override_rules "What is the capital of France?" Option.none).2
      (by decide)⟩

/-- C2 counterexample: when the model's JSON selects tool `"none"` with an
empty `input` field, the normalisation step (guarded by `tool != "none"`) is
skipped, yet the general-knowledge override still promotes the tool to
`web_search_tool`; the selector then returns a non-`none` tool paired with an
empty input, violating the claimed invariant. -/
theorem tool_selector_empty_input_escape :
    (tool_selector "What is the capital of France?"
      (.json (some "none") (some (.str "")))).1 ≠ "none" ∧
    (tool_selector "What is the capital of France?"
      (.json (some "none") (some (.str "")))).2 = PyVal.str "" := by
  constructor
  · decide
  · rfl

/-- C2 (amended): for every non-empty user input, whenever the model step's
parsed JSON selects a tool other than `"none"` (so the normalisation step
runs), or the response is malformed, or the remote call fails, the returned
input is a non-empty string — nested objects are reduced to their
`query`/`input` sub-field or stringified, and an empty or malformed input is
replaced by the original user utterance.  (The unamended claim fails only on
the override path exhibited by `tool_selector_empty_input_escape`.) -/
theorem tool_selector_nonempty_input_amended (user_input : String)
    (outcome : ModelOutcome) (hui : user_input ≠ "")
    (hmodel : modelToolOf outcome ≠ some "none") :
    ∃ s, (tool_selector user_input outcome).2 = PyVal.str s ∧ s ≠ "" := by
  cases outcome with
  | failure => exact ⟨user_input, keywordFallback_snd user_input, hui⟩
  | malformed raw => exact ⟨user_input, rfl, hui⟩
  | json toolField inputField =>
      have hne : toolField.getD "none" ≠ "none" := by
        simpa [modelToolOf] using hmodel
      simp only [tool_selector]
      rw [if_pos hne]
      cases hn : normalizeInput (inputField.getD (.str user_input)) user_input with
      | some tin =>
          obtain ⟨s, hs, hsne⟩ := normalizeInput_nonempty _ _ _ hui hn
          exact ⟨s, by simpa using hs, hsne⟩
      | none => exact ⟨user_input, keywordFallback_snd user_input, hui⟩

/-- Witness for `tool_selector_nonempty_input_amended`: a nested object whose
`query` sub-field is empty is replaced by the (non-empty) user utterance. -/
theorem tool_selector_nonempty_input_amended_witness :
    ∃ s, (tool_selector "hello"
      (.json (some "vector_search_tool")
        (some (.dict [("query", .str "")])))).2 = PyVal.str s ∧ s ≠ "" :=
  tool_selector_nonempty_input_amended "hello"
    (.json (some "vector_search_tool") (some (.dict [("query", .str "")])))
    (by decide) (by decide)

/-- C3: when the remote generation call raises, `tool_selector` neither raises
nor retries (the embedding is a total function of the single call's outcome):
it falls back to the two keyword sets alone — `vector_search_tool` on a domain
keyword, else `web_search_tool` on a general-knowledge keyword, else `"none"`
— always paired with the original user input. -/
theorem tool_selector_remote_failure_fallback (user_input : String) :
    (tool_selector user_input .failure).2 = PyVal.str user_input ∧
    (tool_selector user_input .failure).1 =
      (if anyKeyword mongodb_keywords user_input then "vector_search_tool"
       else if anyKeyword general_knowledge_keywords user_input then "web_search_tool"
       else "none") := by
  refine ⟨keywordFallback_snd user_input, ?_⟩
  show (keywordFallback user_input).1 = _
  unfold keywordFallback
  repeat' split
  all_goals simp_all

/-- C6: when any exception is raised during the combination step of
`hybrid_search_tool` (including the text-search call), the exception is not
propagated: the tool returns the vector-search results alone. -/
theorem hybrid_search_tool_exception_fallback
    (vector_results : List RetrievedDocument) (limit : Nat) :
    hybrid_search_tool vector_results (.error ()) limit = vector_results := rfl

/-- C7: the generation helper of the Response Synthesizer inserts the
constructed system instruction as the first message exactly when no message
with role `system` exists in the conversation list, and otherwise appends it
at the end; in both cases every existing message is kept (an existing system
message is supplemented, never replaced). -/
theorem get_llm_response_system_message_placement
    (messages : List ChatMsg) (system_message : String) :
    get_llm_response_messages messages system_message =
      (if ∃ m ∈ messages, m.role = "system"
       then messages ++ [⟨"system", system_message⟩]
       else (⟨"system", system_message⟩ : ChatMsg) :: messages) ∧
    ∀ m ∈ messages, m ∈ get_llm_response_messages messages system_message := by
  have key : (messages.any fun m => m.role == "system") = true ↔
      ∃ m ∈ messages, m.role = "system" := by
    simp [List.any_eq_true]
  constructor
  · unfold get_llm_response_messages
    by_cases h : ∃ m ∈ messages, m.role = "system"
    · rw [if_pos (key.mpr h), if_pos h]
    · rw [if_neg (fun hc => h (key.mp hc)), if_neg h]
  · intro m hm
    unfold get_llm_response_messages
    split
    · exact List.mem_append_left _ hm
    · exact List.mem_cons_of_mem _ hm

lemma digitChar_mem (d : Nat) : digitChar d ∈ "0123456789".data := by
  unfold digitChar
  split
  · exact List.getElem_mem _
  · decide

lemma natReprList_mem : ∀ fuel n : Nat, ∀ c ∈ natReprList fuel n, c ∈ "0123456789".data := by
  intro fuel
  induction fuel with
  | zero => intro n c hc; simp [natReprList] at hc
  | succ fuel ih =>
      intro n c hc
      unfold natReprList at hc
      split at hc
      · simp at hc
        subst hc
        exact digitChar_mem n
      · rcases List.mem_append.mp hc with h1 | h2
        · exact ih _ _ h1
        · simp at h2
          subst h2
          exact digitChar_mem (n % 10)

lemma intReprList_mem (n : Int) : ∀ c ∈ intReprList n, c ∈ "-0123456789".data := by
  intro c hc
  have widen : ∀ x ∈ "0123456789".data, x ∈ "-0123456789".data := by decide
  unfold intReprList at hc
  split at hc
  · rcases List.mem_cons.mp hc with h1 | h2
    · subst h1; decide
    · exact widen _ (natReprList_mem _ _ _ h2)
  · exact widen _ (natReprList_mem _ _ _ hc)

lemma data_mk (l : List Char) : (String.mk l).data = l := rfl

lemma pyNumStr_mem (v : PyNum) : ∀ c ∈ (pyNumStr v).data, c ∈ "-0123456789./".data := by
  have widen : ∀ x ∈ "-0123456789".data, x ∈ "-0123456789./".data := by decide
  have widenDig : ∀ x ∈ "0123456789".data, x ∈ "-0123456789./".data := by decide
  intro c hc
  cases v with
  | intNum n =>
      rw [show (pyNumStr (.intNum n)).data = intReprList n from rfl] at hc
      exact widen _ (intReprList_mem n _ hc)
  | floatNum q =>
      by_cases hden : q.den = 1
      · rw [show (pyNumStr (.floatNum q)).data =
            (if q.den = 1 then intReprList q.num ++ ['.', '0']
             else intReprList q.num ++ '/' :: natReprList (q.den + 1) q.den) from by
          simp [pyNumStr, data_mk, apply_ite String.data], if_pos hden] at hc
        rcases List.mem_append.mp hc with h1 | h2
        · exact widen _ (intReprList_mem _ _ h1)
        · rcases List.mem_cons.mp h2 with h3 | h4
          · subst h3; decide
          · simp at h4; subst h4; decide
      · rw [show (pyNumStr (.floatNum q)).data =
            (if q.den = 1 then intReprList q.num ++ ['.', '0']
             else intReprList q.num ++ '/' :: natReprList (q.den + 1) q.den) from by
          simp [pyNumStr, data_mk, apply_ite String.data], if_neg hden] at hc
        rcases List.mem_append.mp hc with h1 | h2
        · exact widen _ (intReprList_mem _ _ h1)
        · rcases List.mem_cons.mp h2 with h3 | h4
          · subst h3; decide
          · exact widenDig _ (natReprList_mem _ _ _ h4)

/-- The textual result of a successful evaluation is made of sign, digit,
dot and slash characters only, so it can never equal the unsafe-expression
error text. -/
lemma pyNumStr_ne_unsafe (v : PyNum) :
    pyNumStr v ≠ "Error: Potentially unsafe expression" := by
  intro hc
  have hd : (pyNumStr v).data = ("Error: Potentially unsafe expression").data :=
    congrArg String.data hc
  have hE : 'E' ∈ (pyNumStr v).data := by rw [hd]; decide
  exact absurd (pyNumStr_mem v 'E' hE) (by decide)

lemma ratPow_benign (r : ℚ) (e : Int) (m : String) (h : ratPow r e = .error m) :
    m ≠ "Potentially unsafe expression" := by
  unfold ratPow at h
  split at h
  · exact absurd h (by simp)
  · split at h
    · simp at h; subst h; decide
    · exact absurd h (by simp)

lemma floatPow_benign (r : ℚ) (e : Int) (m : String) (h : floatPow r e = .error m) :
    m ≠ "Potentially unsafe expression" := by
  unfold floatPow at h
  split at h
  · exact absurd h (by simp)
  · rename_i msg heq
    simp at h
    subst h
    exact ratPow_benign _ _ _ heq

lemma pyDiv_benign (a b : PyNum) (m : String) (h : pyDiv a b = .error m) :
    m ≠ "Potentially unsafe expression" := by
  unfold pyDiv at h
  split at h
  · split at h
    · simp at h; subst h; decide
    · exact absurd h (by simp)
  · split at h
    · simp at h; subst h; decide
    · exact absurd h (by simp)

lemma pyFloorDiv_benign (a b : PyNum) (m : String) (h : pyFloorDiv a b = .error m) :
    m ≠ "Potentially unsafe expression" := by
  unfold pyFloorDiv at h
  split at h
  · split at h
    · simp at h; subst h; decide
    · exact absurd h (by simp)
  · split at h
    · simp at h; subst h; decide
    · exact absurd h (by simp)

lemma pyPow_benign (a b : PyNum) (m : String) (h : pyPow a b = .error m) :
    m ≠ "Potentially unsafe expression" := by
  unfold pyPow at h
  split at h
  · split at h
    · exact absurd h (by simp)
    · split at h
      · simp at h; subst h; decide
      · exact floatPow_benign _ _ _ h
  · exact floatPow_benign _ _ _ h
  · split at h
    · exact floatPow_benign _ _ _ h
    · simp at h; subst h; decide

lemma consTok_error (t : Tok) (r : Except String (List Tok)) (m : String)
    (h : consTok t r = .error m) : r = .error m := by
  cases r with
  | ok ts => simp [consTok] at h
  | error e => simp [consTok] at h; rw [h]

lemma tokenize_error_msg : ∀ fuel cs m, tokenize fuel cs = .error m → m = "invalid syntax" := by
  intro fuel
  induction fuel with
  | zero =>
      intro cs m h
      cases cs <;> (unfold tokenize at h; simp at h; exact h.symm)
  | succ fuel ih =>
      intro cs m h
      cases cs with
      | nil => exact absurd h (by simp [tokenize])
      | cons c cs =>
          unfold tokenize at h
          repeat' split at h
          all_goals
            first
            | exact ih _ _ h
            | exact ih _ _ (consTok_error _ _ _ h)
            | (simp at h; exact h.symm)

/-- Every error message the expression parser/evaluator can produce differs
from the unsafe-expression error text (messages are either `invalid syntax`
or the arithmetic `ZeroDivisionError` texts). -/
lemma parse_benign (fuel : Nat) :
    (∀ toks m, parseExpr fuel toks = .error m → m ≠ "Potentially unsafe expression") ∧
    (∀ v toks m, parseExprLoop fuel v toks = .error m → m ≠ "Potentially unsafe expression") ∧
    (∀ toks m, parseTerm fuel toks = .error m → m ≠ "Potentially unsafe expression") ∧
    (∀ v toks m, parseTermLoop fuel v toks = .error m → m ≠ "Potentially unsafe expression") ∧
    (∀ toks m, parseFactor fuel toks = .error m → m ≠ "Potentially unsafe expression") ∧
    (∀ toks m, parsePower fuel toks = .error m → m ≠ "Potentially unsafe expression") ∧
    (∀ toks m, parseAtom fuel toks = .error m → m ≠ "Potentially unsafe expression") := by
  induction fuel with
  | zero =>
      refine ⟨?_, ?_, ?_, ?_, ?_, ?_, ?_⟩
      · intro toks m h; unfold parseExpr at h; simp at h; subst h; decide
      · intro v toks m h; unfold parseExprLoop at h; simp at h; subst h; decide
      · intro toks m h; unfold parseTerm at h; simp at h; subst h; decide
      · intro v toks m h; unfold parseTermLoop at h; simp at h; subst h; decide
      · intro toks m h; unfold parseFactor at h; simp at h; subst h; decide
      · intro toks m h; unfold parsePower at h; simp at h; subst h; decide
      · intro toks m h; unfold parseAtom at h; simp at h; subst h; decide
  | succ fuel ih =>
      obtain ⟨ihE, ihEL, ihT, ihTL, ihF, ihP, ihA⟩ := ih
      refine ⟨?_, ?_, ?_, ?_, ?_, ?_, ?_⟩
      · intro toks m h
        unfold parseExpr at h
        split at h
        · exact ihEL _ _ _ h
        · rename_i msg heq
          simp at h; subst h
          exact ihT _ _ heq
      · intro v toks m h
        unfold parseExprLoop at h
        split at h
        · split at h
          · exact ihEL _ _ _ h
          · rename_i msg heq
            simp at h; subst h
            exact ihT _ _ heq
        · split at h
          · exact ihEL _ _ _ h
          · rename_i msg heq
            simp at h; subst h
            exact ihT _ _ heq
        · exact absurd h (by simp)
      · intro toks m h
        unfold parseTerm at h
        split at h
        · exact ihTL _ _ _ h
        · rename_i msg heq
          simp at h; subst h
          exact ihF _ _ heq
      · intro v toks m h
        unfold parseTermLoop at h
        split at h
        · split at h
          · exact ihTL _ _ _ h
          · rename_i msg heq
            simp at h; subst h
            exact ihF _ _ heq
        · split at h
          · split at h
            · exact ihTL _ _ _ h
            · rename_i msg heq
              simp at h; subst h
              exact pyDiv_benign _ _ _ heq
          · rename_i msg heq
            simp at h; subst h
            exact ihF _ _ heq
        · split at h
          · split at h
            · exact ihTL _ _ _ h
            · rename_i msg heq
              simp at h; subst h
              exact pyFloorDiv_benign _ _ _ heq
          · rename_i msg heq
            simp at h; subst h
            exact ihF _ _ heq
        · exact absurd h (by simp)
      · intro toks m h
        unfold parseFactor at h
        split at h
        · split at h
          · exact absurd h (by simp)
          · rename_i msg heq
            simp at h; subst h
            exact ihF _ _ heq
        · exact ihF _ _ h
        · exact ihP _ _ h
      · intro toks m h
        unfold parsePower at h
        split at h
        · split at h
          · split at h
            · exact absurd h (by simp)
            · rename_i msg heq
              simp at h; subst h
              exact pyPow_benign _ _ _ heq
          · rename_i msg heq
            simp at h; subst h
            exact ihF _ _ heq
        · exact absurd h (by simp)
        · rename_i msg heq
          simp at h; subst h
          exact ihA _ _ heq
      · intro toks m h
        unfold parseAtom at h
        split at h
        · exact absurd h (by simp)
        · split at h
          · exact absurd h (by simp)
          · simp at h; subst h; decide
          · rename_i msg heq
            simp at h; subst h
            exact ihE _ _ heq
        · simp at h; subst h; decide

lemma pyEvalExpr_benign (s m : String) (h : pyEvalExpr s = .error m) :
    m ≠ "Potentially unsafe expression" := by
  unfold pyEvalExpr at h
  split at h
  · rename_i msg heq
    simp at h; subst h
    have := tokenize_error_msg _ _ _ heq
    subst this; decide
  · split at h
    · exact absurd h (by simp)
    · simp at h; subst h; decide
    · rename_i msg heq
      simp at h; subst h
      exact (parse_benign _).1 _ _ heq

lemma err_append_ne (a b : String) (hne : a ≠ b) : "Error: " ++ a ≠ "Error: " ++ b := by
  intro hc
  apply hne
  have hd : ("Error: ").data ++ a.data = ("Error: ").data ++ b.data :=
    congrArg String.data hc
  have hab : a.data = b.data := List.append_cancel_left hd
  cases a; cases b
  exact congrArg String.mk hab

/-- An input passing the safe-character check contains none of the
blocklisted substrings after lowercasing: each of them holds a letter or
underscore, and lowercasing a safe character yields the same safe character,
never a letter or underscore. -/
lemma safe_chars_no_dangerous (s : String)
    (h : s.data.all (fun c => safe_chars.contains c) = true) :
    dangerous_funcs.any (fun f => inStr f (pyLower s)) = false := by
  have hmem : ∀ c ∈ s.data, c ∈ safe_chars := by
    intro c hc
    have := List.all_eq_true.mp h c hc
    simpa using this
  have noInfix : ∀ (f : String) (x : Char), x ∈ f.data → x ∉ safe_chars →
      inStr f (pyLower s) = false := by
    intro f x hx hxs
    by_contra hc
    rw [Bool.not_eq_false] at hc
    have hinf : f.data <:+: (pyLower s).data := of_decide_eq_true hc
    have hxmap : x ∈ s.data.map Char.toLower := hinf.subset hx
    obtain ⟨c, hcmem, hceq⟩ := List.mem_map.mp hxmap
    have lowerFix : ∀ y ∈ safe_chars, y.toLower = y := by decide
    have hcsafe : c ∈ safe_chars := hmem c hcmem
    have hfix : c.toLower = c := lowerFix c hcsafe
    rw [hfix] at hceq
    subst hceq
    exact hxs hcsafe
  rw [Bool.eq_false_iff]
  intro hc
  obtain ⟨f, hf, hfi⟩ := List.any_eq_true.mp hc
  rcases (by simpa [dangerous_funcs] using hf :
      f = "import" ∨ f = "exec" ∨ f = "eval" ∨ f = "__") with rfl | rfl | rfl | rfl
  · exact absurd hfi (by rw [noInfix "import" 'i' (by decide) (by decide)]; decide)
  · exact absurd hfi (by rw [noInfix "exec" 'e' (by decide) (by decide)]; decide)
  · exact absurd hfi (by rw [noInfix "eval" 'e' (by decide) (by decide)]; decide)
  · exact absurd hfi (by rw [noInfix "__" '_' (by decide) (by decide)]; decide)

/-- C4: the calculator never raises: inputs containing a character outside
the safe set get the invalid-characters error text; valid restricted
arithmetic expressions evaluate with standard operator precedence
(`15 * 23 + 45` gives `390`, not `1020`); `import os` yields an error string;
division by zero is caught and returned as an error text. -/
theorem calculator_tool_error_handling (s : String)
    (h : s.data.all (fun c => safe_chars.contains c) = false) :
    calculator_tool s = "Error: Invalid characters in mathematical expression" ∧
    (∀ s', dangerous_funcs.any (fun f => inStr f (pyLower s')) = true →
      calculator_tool s' = "Error: Invalid characters in mathematical expression") ∧
    calculator_tool "15 * 23 + 45" = "390" ∧
    calculator_tool "import os" = "Error: Invalid characters in mathematical expression" ∧
    calculator_tool "1/0" = "Error: division by zero" := by
  have invalid : ∀ u : String, u.data.all (fun c => safe_chars.contains c) = false →
      calculator_tool u = "Error: Invalid characters in mathematical expression" := by
    intro u hu
    unfold calculator_tool
    rw [hu]
    rfl
  refine ⟨invalid s h, ?_, rfl, rfl, rfl⟩
  intro s' hs'
  by_cases hall : s'.data.all (fun c => safe_chars.contains c) = true
  · exact absurd hs' (by rw [safe_chars_no_dangerous s' hall]; decide)
  · exact invalid s' (Bool.eq_false_iff.mpr hall)

/-- Witness for `calculator_tool_error_handling` at `s = "import os"`. -/
theorem calculator_tool_error_handling_witness :
    calculator_tool "import os" = "Error: Invalid characters in mathematical expression" ∧
    (∀ s', dangerous_funcs.any (fun f => inStr f (pyLower s')) = true →
      calculator_tool s' = "Error: Invalid characters in mathematical expression") ∧
    calculator_tool "15 * 23 + 45" = "390" ∧
    calculator_tool "import os" = "Error: Invalid characters in mathematical expression" ∧
    calculator_tool "1/0" = "Error: division by zero" :=
  calculator_tool_error_handling "import os" (by decide)

/-- C10: the dangerous-substring branch of the calculator is unreachable:
any input passing the safe-character check contains none of the blocklisted
substrings after lowercasing (each contains a letter or underscore outside
the safe character set), so the `Potentially unsafe expression` error text is
never returned. -/
theorem calculator_unsafe_branch_unreachable (s : String)
    (h : s.data.all (fun c => safe_chars.contains c) = true) :
    dangerous_funcs.any (fun f => inStr f (pyLower s)) = false ∧
    calculator_tool s ≠ "Error: Potentially unsafe expression" := by
  have hdang : dangerous_funcs.any (fun f => inStr f (pyLower s)) = false :=
    safe_chars_no_dangerous s h
  refine ⟨hdang, ?_⟩
  unfold calculator_tool
  rw [h, hdang]
  simp only [Bool.not_true, Bool.false_eq_true, if_false]
  split
  · exact pyNumStr_ne_unsafe _
  · exact err_append_ne _ _ (pyEvalExpr_benign _ _ (by assumption))

/-- Witness for `calculator_unsafe_branch_unreachable` at `s = "1+2"`. -/
theorem calculator_unsafe_branch_unreachable_witness :
    dangerous_funcs.any (fun f => inStr f (pyLower "1+2")) = false ∧
    calculator_tool "1+2" ≠ "Error: Potentially unsafe expression" :=
  calculator_unsafe_branch_unreachable "1+2" (by decide)

/-- Invariants of one accumulation pass of `hybrid_search_tool`: already
accumulated entries are kept; result texts are duplicate-free; every result
text is recorded as seen; new entries carry the pass's tag and a text unseen
before the pass; every input either was already seen or contributes a fresh
entry with its text. -/
lemma addTagged_spec (tag : String) :
    ∀ (rs acc : List RetrievedDocument) (seen : List String),
    (∀ a ∈ acc, a.text ∈ seen) → ((acc.map fun a => a.text).Nodup) →
    (∀ a ∈ acc, a ∈ (addTagged tag rs acc seen).1) ∧
    (((addTagged tag rs acc seen).1.map fun a => a.text).Nodup) ∧
    (∀ a ∈ (addTagged tag rs acc seen).1, a.text ∈ (addTagged tag rs acc seen).2) ∧
    (∀ a ∈ (addTagged tag rs acc seen).1,
      a ∈ acc ∨ (a.search_type = some tag ∧ a.text ∉ seen)) ∧
    (∀ r ∈ rs, r.text ∈ seen ∨
      ∃ a ∈ (addTagged tag rs acc seen).1, a.text = r.text ∧ a ∉ acc) := by
  intro rs
  induction rs with
  | nil =>
      intro acc seen h1 h2
      simp only [addTagged]
      exact ⟨fun a ha => ha, h2, h1, fun a ha => Or.inl ha, by simp⟩
  | cons r rs ih =>
      intro acc seen h1 h2
      by_cases hmem : r.text ∈ seen
      · rw [show addTagged tag (r :: rs) acc seen = addTagged tag rs acc seen from by
          simp [addTagged, hmem]]
        obtain ⟨c1, c2, c3, c4, c5⟩ := ih acc seen h1 h2
        refine ⟨c1, c2, c3, c4, ?_⟩
        intro r' hr'
        rcases List.mem_cons.mp hr' with rfl | hr2
        · exact Or.inl hmem
        · exact c5 r' hr2
      · have heq : addTagged tag (r :: rs) acc seen =
            addTagged tag rs (acc ++ [{ r with search_type := some tag }])
              (r.text :: seen) := by
          simp [addTagged, hmem]
        rw [heq]
        have h1' : ∀ a ∈ acc ++ [{ r with search_type := some tag }],
            a.text ∈ r.text :: seen := by
          intro a ha
          rcases List.mem_append.mp ha with ha1 | ha2
          · exact List.mem_cons_of_mem _ (h1 a ha1)
          · simp at ha2
            subst ha2
            simp
        have hnotin : r.text ∉ acc.map fun a => a.text := by
          intro hcontra
          obtain ⟨a, ha, hat⟩ := List.mem_map.mp hcontra
          exact hmem (hat ▸ h1 a ha)
        have h2' : ((acc ++ [{ r with search_type := some tag }]).map
            fun a : RetrievedDocument => a.text).Nodup := by
          rw [List.map_append]
          refine List.Nodup.append h2 (by simp) ?_
          intro x hx1 hx2
          simp at hx2
          subst hx2
          exact hnotin hx1
        obtain ⟨c1, c2, c3, c4, c5⟩ := ih _ _ h1' h2'
        refine ⟨?_, c2, c3, ?_, ?_⟩
        · intro a ha
          exact c1 a (List.mem_append_left _ ha)
        · intro a ha
          rcases c4 a ha with hacc | ⟨htag, hnot⟩
          · rcases List.mem_append.mp hacc with h5 | h6
            · exact Or.inl h5
            · simp at h6
              subst h6
              exact Or.inr ⟨rfl, hmem⟩
          · exact Or.inr ⟨htag, fun hcon => hnot (List.mem_cons_of_mem _ hcon)⟩
        · intro r' hr'
          rcases List.mem_cons.mp hr' with heqr | hr2
          · refine Or.inr ⟨{ r with search_type := some tag },
              c1 _ (List.mem_append_right _ (by simp)), by simp [heqr], ?_⟩
            intro hcon
            exact hmem (h1 { r with search_type := some tag } hcon)
          · rcases c5 r' hr2 with hseen | ⟨a, ha, hat, hanotin⟩
            · rcases List.mem_cons.mp hseen with heq2 | hseen2
              · refine Or.inr ⟨{ r with search_type := some tag },
                  c1 _ (List.mem_append_right _ (by simp)), by simp [heq2], ?_⟩
                intro hcon
                exact hmem (h1 { r with search_type := some tag } hcon)
              · exact Or.inl hseen2
            · exact Or.inr ⟨a, ha, hat, fun hcon => hanotin (List.mem_append_left _ hcon)⟩

/-- C5: on a query where both searches succeed, `hybrid_search_tool` tags
every combined result's `search_type`, deduplicates by exact text equality
with vector results taking priority, and truncates to at most `limit`
entries; in particular a text returned by both searches appears exactly once
in the combined list, tagged `"vector"`. -/
theorem hybrid_search_tool_dedup (vec txt : List RetrievedDocument) (limit : Nat)
    (t : String) (d e : RetrievedDocument)
    (hd : d ∈ vec) (he : e ∈ txt) (hdt : d.text = t) (het : e.text = t) :
    hybrid_search_tool vec (.ok txt) limit = (hybrid_combine vec txt).take limit ∧
    (hybrid_search_tool vec (.ok txt) limit).length ≤ limit ∧
    (∀ a ∈ hybrid_search_tool vec (.ok txt) limit,
      a.search_type = some "vector" ∨ a.search_type = some "text") ∧
    ((hybrid_combine vec txt).map fun a => a.text).Nodup ∧
    (hybrid_combine vec txt).countP (fun a => a.text == t) = 1 ∧
    (hybrid_search_tool vec (.ok txt) limit).countP (fun a => a.text == t) ≤ 1 ∧
    (∀ a ∈ hybrid_combine vec txt, a.text = t → a.search_type = some "vector") := by
  obtain ⟨p1c1, p1c2, p1c3, p1c4, p1c5⟩ :=
    addTagged_spec "vector" vec [] [] (by simp) (by simp)
  obtain ⟨p2c1, p2c2, p2c3, p2c4, p2c5⟩ :=
    addTagged_spec "text" txt (addTagged "vector" vec [] []).1
      (addTagged "vector" vec [] []).2 p1c3 p1c2
  have hcomb : hybrid_combine vec txt =
      (addTagged "text" txt (addTagged "vector" vec [] []).1
        (addTagged "vector" vec [] []).2).1 := rfl
  rcases p1c5 d hd with hmemnil | ⟨a, haP1, hatext, -⟩
  · exact absurd hmemnil (by simp)
  have hatag : a.search_type = some "vector" := by
    rcases p1c4 a haP1 with hin | ⟨htag, -⟩
    · exact absurd hin (by simp)
    · exact htag
  have haIn2 : a ∈ hybrid_combine vec txt := by rw [hcomb]; exact p2c1 a haP1
  have hat : a.text = t := hatext.trans hdt
  have tagged : ∀ b ∈ hybrid_combine vec txt,
      b.search_type = some "vector" ∨ b.search_type = some "text" := by
    intro b hb
    rw [hcomb] at hb
    rcases p2c4 b hb with hbP1 | ⟨hbtag, -⟩
    · rcases p1c4 b hbP1 with hnil | ⟨hbtag, -⟩
      · exact absurd hnil (by simp)
      · exact Or.inl hbtag
    · exact Or.inr hbtag
  have hnodup : ((hybrid_combine vec txt).map fun x => x.text).Nodup := by
    rw [hcomb]; exact p2c2
  have huniq : ∀ b ∈ hybrid_combine vec txt, b.text = t →
      b.search_type = some "vector" := by
    intro b hb hbt
    rw [hcomb] at hb
    rcases p2c4 b hb with hbP1 | ⟨hbtag, hbnot⟩
    · rcases p1c4 b hbP1 with hnil | ⟨hbtag, -⟩
      · exact absurd hnil (by simp)
      · exact hbtag
    · exfalso
      apply hbnot
      rw [hbt, ← hat]
      exact p1c3 a haP1
  have hcount : (hybrid_combine vec txt).countP (fun x => x.text == t) = 1 := by
    have htmem : t ∈ (hybrid_combine vec txt).map fun x => x.text :=
      List.mem_map.mpr ⟨a, haIn2, hat⟩
    have hone : ((hybrid_combine vec txt).map fun x => x.text).count t = 1 :=
      List.count_eq_one_of_mem hnodup htmem
    calc (hybrid_combine vec txt).countP (fun x => x.text == t)
        = ((hybrid_combine vec txt).map fun x => x.text).countP (· == t) := by
          rw [List.countP_map]
          rfl
      _ = ((hybrid_combine vec txt).map fun x => x.text).count t := by
          rw [List.count_eq_countP]
      _ = 1 := hone
  have htake : hybrid_search_tool vec (.ok txt) limit =
      (hybrid_combine vec txt).take limit := rfl
  refine ⟨rfl, ?_, ?_, hnodup, hcount, ?_, huniq⟩
  · simp [hybrid_search_tool, List.length_take]
  · intro a ha
    rw [htake] at ha
    exact tagged a (List.take_subset limit _ ha)
  · rw [htake, ← hcount]
    exact (List.take_sublist limit _).countP_le _

/-- Witness for `hybrid_search_tool_dedup`: one vector and one text result
with the same text. -/
theorem hybrid_search_tool_dedup_witness :
    hybrid_search_tool [⟨"a", "m1", Option.none⟩] (.ok [⟨"a", "m2", Option.none⟩]) 5 =
      (hybrid_combine [⟨"a", "m1", Option.none⟩] [⟨"a", "m2", Option.none⟩]).take 5 ∧
    (hybrid_search_tool [⟨"a", "m1", Option.none⟩]
      (.ok [⟨"a", "m2", Option.none⟩]) 5).length ≤ 5 ∧
    (∀ x ∈ hybrid_search_tool [⟨"a", "m1", Option.none⟩]
        (.ok [⟨"a", "m2", Option.none⟩]) 5,
      x.search_type = some "vector" ∨ x.search_type = some "text") ∧
    ((hybrid_combine [⟨"a", "m1", Option.none⟩] [⟨"a", "m2", Option.none⟩]).map
      fun x => x.text).Nodup ∧
    (hybrid_combine [⟨"a", "m1", Option.none⟩] [⟨"a", "m2", Option.none⟩]).countP
      (fun x => x.text == "a") = 1 ∧
    (hybrid_search_tool [⟨"a", "m1", Option.none⟩]
      (.ok [⟨"a", "m2", Option.none⟩]) 5).countP (fun x => x.text == "a") ≤ 1 ∧
    (∀ x ∈ hybrid_combine [⟨"a", "m1", Option.none⟩] [⟨"a", "m2", Option.none⟩],
      x.text = "a" → x.search_type = some "vector") :=
  hybrid_search_tool_dedup [⟨"a", "m1", Option.none⟩] [⟨"a", "m2", Option.none⟩] 5 "a"
    ⟨"a", "m1", Option.none⟩ ⟨"a", "m2", Option.none⟩ (by simp) (by simp) rfl rfl

/-- C9: storing a chat turn and then retrieving the session's history returns
a sequence containing that turn with `role` and `content` preserved exactly,
and the returned sequence is ordered non-decreasing by timestamp. -/
theorem store_retrieve_round_trip (st : MemoryStore)
    (session_id role content : String) (metadata : List (String × String)) :
    (∃ m ∈ retrieve_session_history
        (store_chat_message st session_id role content metadata) session_id,
      m.role = role ∧ m.content = content) ∧
    (retrieve_session_history
        (store_chat_message st session_id role content metadata) session_id).Sorted
      (fun a b => a.timestamp ≤ b.timestamp) := by
  have hτmem : (⟨session_id, role, content, st.clock, metadata⟩ : ChatTurn) ∈
      (store_chat_message st session_id role content metadata).turns := by
    simp [store_chat_message]
  have hfilter : (⟨session_id, role, content, st.clock, metadata⟩ : ChatTurn) ∈
      (store_chat_message st session_id role content metadata).turns.filter
        (fun t => t.session_id == session_id) :=
    List.mem_filter.mpr ⟨hτmem, by simp⟩
  have hsort : (⟨session_id, role, content, st.clock, metadata⟩ : ChatTurn) ∈
      ((store_chat_message st session_id role content metadata).turns.filter
        (fun t => t.session_id == session_id)).insertionSort turnLe :=
    ((List.perm_insertionSort turnLe _).mem_iff).mpr hfilter
  constructor
  · exact ⟨⟨role, content, st.clock, metadata⟩,
      List.mem_map.mpr ⟨_, hsort, rfl⟩, rfl, rfl⟩
  · have hs : (((store_chat_message st session_id role content metadata).turns.filter
        (fun t => t.session_id == session_id)).insertionSort turnLe).Sorted turnLe :=
      List.sorted_insertionSort turnLe _
    unfold retrieve_session_history
    rw [List.Sorted, List.pairwise_map]
    exact hs.imp (fun h => h)

/-- C8: in `generate_response`, the just-persisted user message appears twice
in the conversation list handed to the Response Synthesizer — once inside the
freshly reloaded session history (read after the write) and once appended
explicitly as the final user message — so the list contains it at least
twice. -/
theorem generate_response_user_message_duplication (st : MemoryStore)
    (session_id user_input session_summary : String) :
    (⟨"user", user_input⟩ : ChatMsg) ∈ clean_session_history
        (retrieve_session_history
          (store_chat_message st session_id "user" user_input) session_id) ∧
    (generate_llm_input st session_id user_input session_summary).getLast? =
      some ⟨"user", user_input⟩ ∧
    2 ≤ (generate_llm_input st session_id user_input session_summary).countP
        (fun m => m.role == "user" && m.content == user_input) := by
  have hτmem : (⟨session_id, "user", user_input, st.clock, []⟩ : ChatTurn) ∈
      (store_chat_message st session_id "user" user_input).turns := by
    simp [store_chat_message]
  have hsort : (⟨session_id, "user", user_input, st.clock, []⟩ : ChatTurn) ∈
      ((store_chat_message st session_id "user" user_input).turns.filter
        (fun t => t.session_id == session_id)).insertionSort turnLe :=
    ((List.perm_insertionSort turnLe _).mem_iff).mpr
      (List.mem_filter.mpr ⟨hτmem, by simp⟩)
  have hmemclean : (⟨"user", user_input⟩ : ChatMsg) ∈ clean_session_history
      (retrieve_session_history
        (store_chat_message st session_id "user" user_input) session_id) := by
    unfold clean_session_history retrieve_session_history
    rw [List.map_map]
    exact List.mem_map.mpr ⟨_, hsort, rfl⟩
  refine ⟨hmemclean, ?_, ?_⟩
  · simp [generate_llm_input]
  · have hexp : generate_llm_input st session_id user_input session_summary =
        (if session_summary ≠ "" ∧ session_summary ≠ "No previous conversation history."
         then [(⟨"system", "Previous conversation summary: " ++ session_summary⟩ : ChatMsg)]
         else []) ++
        clean_session_history (retrieve_session_history
          (store_chat_message st session_id "user" user_input) session_id) ++
        [⟨"user", user_input⟩] := rfl
    rw [hexp, List.countP_append, List.countP_append]
    have h1 : 0 < (clean_session_history (retrieve_session_history
        (store_chat_message st session_id "user" user_input) session_id)).countP
        (fun m => m.role == "user" && m.content == user_input) :=
      List.countP_pos_iff.mpr ⟨⟨"user", user_input⟩, hmemclean, by simp⟩
    have h2 : ([(⟨"user", user_input⟩ : ChatMsg)]).countP
        (fun m => m.role == "user" && m.content == user_input) = 1 := by simp
    omega
